import Mathlib

/-!
Shallow embedding of `src/vector.hpp` (class `Vector<T>` and its nested
`Vector<T>::Iterator`), together with proofs about its operations.

Modelling choices:
- The buffer `m_Data` is a total function `Nat → α`.  Slots the source leaves
  uninitialized hold the `Inhabited` default; their values are junk and are
  never observed by the properties proved here.
- `SizeType` (`std::size_t`) is `Nat` and `DifferenceType` (`std::ptrdiff_t`)
  is `Int`.  No arithmetic in the proved properties reaches the wrap-around
  range of the machine types; the one place the source can underflow a
  `size_t` (`m_Size - 1` in `Erase` on an empty vector) is outside every
  property proved here, which all require a valid erase position.
- The address of the allocation is an arbitrary `base : Int`, supplied as an
  explicit argument wherever the source does pointer arithmetic on `m_Data`;
  an `Iterator` stores its `m_Ptr` as such an address (in element units).
- Exceptions (`std::out_of_range` from `At`, `std::invalid_argument` from
  `Reallocate`) are modelled with `Except VecError`; a function that returns
  `.error` mutates nothing, matching a C++ throw before any member write.
-/

namespace CppVector

/-- The two exception kinds thrown by the source: `std::out_of_range`
(from `At`) and `std::invalid_argument` (from `Reallocate`). -/
inductive VecError where
  | outOfRange
  | invalidCapacity
deriving DecidableEq

/-- Models `Vector<T>::Iterator`: it stores a single raw pointer `m_Ptr`,
here an address in element units. -/
structure Iterator where
  m_Ptr : Int
deriving DecidableEq

namespace Iterator

/-- Models `operator++()` (prefix): `++m_Ptr; return *this`. -/
def incPre (it : Iterator) : Iterator :=
  { m_Ptr := it.m_Ptr + 1 }

/-- Models `operator++(int)` (postfix): the source copies `*this`,
applies `++(*this)`, and returns `*this` (the already-advanced iterator,
not the copy).  Result is `(state after, returned value)`. -/
def incPost (it : Iterator) : Iterator × Iterator :=
  let _copy := it
  let self := it.incPre
  (self, self)

/-- Models `operator--()` (prefix): `--m_Ptr; return *this`. -/
def decPre (it : Iterator) : Iterator :=
  { m_Ptr := it.m_Ptr - 1 }

/-- Models `operator--(int)` (postfix) exactly as written in the source:
the body copies `*this`, then applies `++(*this)` (an increment), and
returns `*this`.  Result is `(state after, returned value)`. -/
def decPost (it : Iterator) : Iterator × Iterator :=
  let _copy := it
  let self := it.incPre
  (self, self)

/-- Models `operator+(DifferenceType)` (via `operator+=`). -/
def add (it : Iterator) (offset : Int) : Iterator :=
  { m_Ptr := it.m_Ptr + offset }

/-- Models `operator-(const Iterator&)`: pointer difference. -/
def sub (it other : Iterator) : Int :=
  it.m_Ptr - other.m_Ptr

/-- Models `operator==`: comparison of the underlying pointers. -/
def eqOp (it other : Iterator) : Bool :=
  it.m_Ptr == other.m_Ptr

end Iterator

/-- Models the data members of `Vector<T>`: buffer, element count, slot
count.  Slots `[0, m_Size)` are the live elements. -/
structure Vector (α : Type) where
  m_Data : Nat → α
  m_Size : Nat
  m_Capacity : Nat

namespace Vector

/-- Models `static const SizeType INITIAL_CAPACITY = 1`. -/
def INITIAL_CAPACITY : Nat := 1

variable {α : Type}

/-- Models `Allocate(capacity)`: a fresh buffer whose slots are all
uninitialized (junk values, modelled by `default`). -/
def Allocate (α : Type) [Inhabited α] (_capacity : Nat) : Nat → α :=
  fun _ => default

/-- Models the default constructor `Vector()`. -/
def mkDefault [Inhabited α] : Vector α :=
  { m_Data := Allocate α INITIAL_CAPACITY, m_Size := 0, m_Capacity := INITIAL_CAPACITY }

/-- Models `Vector(SizeType count)`: `count` uninitialized slots. -/
def mkCount [Inhabited α] (count : Nat) : Vector α :=
  { m_Data := Allocate α count, m_Size := 0, m_Capacity := count }

/-- Models `Vector(SizeType count, ConstReference value)`: `count` slots all
constructed with `value`. -/
def mkFill [Inhabited α] (count : Nat) (value : α) : Vector α :=
  { m_Data := fun i => if i < count then value else Allocate α count i,
    m_Size := count, m_Capacity := count }

/-- Models the copy constructor: fresh buffer of the source's capacity, the
source's `m_Size` live elements copy-constructed in order. -/
def copy [Inhabited α] (other : Vector α) : Vector α :=
  { m_Data := fun i => if i < other.m_Size then other.m_Data i
                       else Allocate α other.m_Capacity i,
    m_Size := other.m_Size, m_Capacity := other.m_Capacity }

/-- Models the move constructor: the new vector takes the buffer, size and
capacity; the moved-from vector is reset to a fresh `INITIAL_CAPACITY`
allocation with size 0.  Result is `(new vector, moved-from vector)`. -/
def moveCtor [Inhabited α] (other : Vector α) : Vector α × Vector α :=
  ({ m_Data := other.m_Data, m_Size := other.m_Size, m_Capacity := other.m_Capacity },
   { m_Data := Allocate α INITIAL_CAPACITY, m_Size := 0, m_Capacity := INITIAL_CAPACITY })

/-- Models `Size()`. -/
def Size (v : Vector α) : Nat :=
  v.m_Size

/-- Models `Empty()`. -/
def Empty (v : Vector α) : Bool :=
  v.m_Size == 0

/-- Models `Capacity()`. -/
def Capacity (v : Vector α) : Nat :=
  v.m_Capacity

/-- Models `Begin()`: `Iterator(m_Data)`, where `base` is the address of
the allocation. -/
def Begin (_v : Vector α) (base : Int) : Iterator :=
  { m_Ptr := base }

/-- Models `End()`: `Iterator(m_Data + m_Size)`. -/
def End (v : Vector α) (base : Int) : Iterator :=
  { m_Ptr := base + (v.m_Size : Int) }

/-- Models `operator[]`: unchecked read of `m_Data[index]`. -/
def get (v : Vector α) (index : Nat) : α :=
  v.m_Data index

/-- Models `At(index)`: throws `std::out_of_range` when `index >= m_Size`,
otherwise returns `m_Data[index]`.  It writes no member, so the vector is
unchanged whether it fails or succeeds. -/
def At (v : Vector α) (index : Nat) : Except VecError α :=
  if index ≥ v.m_Size then .error .outOfRange
  else .ok (v.m_Data index)

/-- Models `Clear()`: destructs the live elements (dead values stay in the
buffer as junk) and sets `m_Size = 0`; capacity and buffer are kept. -/
def Clear (v : Vector α) : Vector α :=
  { v with m_Size := 0 }

/-- Models `Reallocate(newCapacity)`: throws `std::invalid_argument` when
`newCapacity < m_Size`, before anything is written.  Otherwise a fresh
buffer is allocated, the `m_Size` live elements are moved over in order
(slots at and beyond `m_Size` in the new buffer stay uninitialized), and
the capacity becomes `newCapacity`. -/
def Reallocate [Inhabited α] (v : Vector α) (newCapacity : Nat) : Except VecError (Vector α) :=
  if newCapacity < v.m_Size then .error .invalidCapacity
  else .ok { m_Data := fun i => if i < v.m_Size then v.m_Data i
                                else Allocate α newCapacity i,
             m_Size := v.m_Size, m_Capacity := newCapacity }

/-- Models the growth step that `PushBack` and `Insert` both begin with:
`if (m_Size == m_Capacity) Reallocate(m_Capacity * 2);`.  That `Reallocate`
call cannot throw (`m_Capacity * 2 < m_Size` is impossible when
`m_Size == m_Capacity`), so the `.error` arm is unreachable. -/
def growIfFull [Inhabited α] (v : Vector α) : Vector α :=
  if v.m_Size = v.m_Capacity then
    match v.Reallocate (v.m_Capacity * 2) with
    | .ok w => w
    | .error _ => v
  else v

/-- Models `PushBack(value)` (the copy and move overloads coincide at value
level): grow to `m_Capacity * 2` when full, construct `value` at index
`m_Size`, increment `m_Size`. -/
def PushBack [Inhabited α] (v : Vector α) (value : α) : Vector α :=
  let v1 := v.growIfFull
  { m_Data := fun j => if j = v1.m_Size then value else v1.m_Data j,
    m_Size := v1.m_Size + 1, m_Capacity := v1.m_Capacity }

/-- Models `PopBack()`: a no-op when empty; otherwise decrements `m_Size`
and destructs the last element (its dead value stays in the buffer). -/
def PopBack (v : Vector α) : Vector α :=
  if v.m_Size = 0 then v
  else { v with m_Size := v.m_Size - 1 }

end Vector

/-- Models the shifting loop of `Insert`:
`for (SizeType i = m_Size; i > index; --i) new (&m_Data[i]) T(move(m_Data[i-1]))`,
entered with `i` equal to the second argument of the source loop header. -/
def shiftUpLoop {α : Type} (d : Nat → α) (index i : Nat) : Nat → α :=
  if index < i then
    shiftUpLoop (fun j => if j = i then d (i - 1) else d j) index (i - 1)
  else
    d
termination_by i
decreasing_by omega

/-- Models the shifting loop of `Erase`:
`for (SizeType i = index; i < stop; ++i) new (&m_Data[i]) T(move(m_Data[i+1]))`,
where the source's `stop` is `m_Size - 1`. -/
def shiftDownLoop {α : Type} (d : Nat → α) (stop i : Nat) : Nat → α :=
  if i < stop then
    shiftDownLoop (fun j => if j = i then d (i + 1) else d j) stop (i + 1)
  else
    d
termination_by stop - i
decreasing_by omega

namespace Vector

variable {α : Type}

/-- Models `Insert(position, value)` (the copy and move overloads coincide
at value level; the copy overload's stray `std::cout` line only reads).
The target index `position - Begin()` is computed before the growth step;
after the backward shift the value is assigned at that index and `m_Size`
is incremented.  As in `PushBack`, the internal `Reallocate` cannot throw.
The source's `DifferenceType` index is non-negative whenever `position` is
at or after `Begin()`, which every property proved here requires. -/
def Insert [Inhabited α] (v : Vector α) (base : Int) (position : Iterator) (value : α) : Vector α :=
  let index : Int := position.sub (v.Begin base)
  let v1 := v.growIfFull
  let d1 := shiftUpLoop v1.m_Data index.toNat v1.m_Size
  { m_Data := fun j => if j = index.toNat then value else d1 j,
    m_Size := v1.m_Size + 1, m_Capacity := v1.m_Capacity }

/-- Models `Erase(position)`: the elements after the target index are moved
one slot toward the start and `m_Size` is decremented.  The loop bound
`m_Size - 1` is the source's `size_t` expression; for `m_Size = 0` the
source underflows (undefined behavior), so every property proved here
requires a non-empty vector. -/
def Erase (v : Vector α) (base : Int) (position : Iterator) : Vector α :=
  let index : Int := position.sub (v.Begin base)
  let d1 := shiftDownLoop v.m_Data (v.m_Size - 1) index.toNat
  { m_Data := d1, m_Size := v.m_Size - 1, m_Capacity := v.m_Capacity }

/-- The sequence of live elements, `m_Data[0], …, m_Data[m_Size - 1]`. -/
def toList (v : Vector α) : List α :=
  (List.range v.m_Size).map v.m_Data

end Vector

/-! Characterizations of the two element-shifting loops. -/

/-- Running the backward shift of `Insert` from `i = index + k` copies every
slot in `(index, index + k]` from the slot one below it. -/
theorem shiftUpLoop_apply {α : Type} (index : Nat) :
    ∀ (k : Nat) (d : Nat → α) (j : Nat),
      shiftUpLoop d index (index + k) j
        = if index < j ∧ j ≤ index + k then d (j - 1) else d j := by
  intro k
  induction k with
  | zero =>
    intro d j
    rw [shiftUpLoop, if_neg (by omega), if_neg (by omega)]
  | succ k ih =>
    intro d j
    rw [shiftUpLoop, if_pos (by omega)]
    have hred : index + (k + 1) - 1 = index + k := by omega
    rw [hred, ih]
    split_ifs <;> first | rfl | (congr 1; omega)

/-- Running the forward shift of `Erase` from `i` up to `stop = i + k` copies
every slot in `[i, i + k)` from the slot one above it. -/
theorem shiftDownLoop_apply {α : Type} :
    ∀ (k : Nat) (d : Nat → α) (i j : Nat),
      shiftDownLoop d (i + k) i j
        = if i ≤ j ∧ j < i + k then d (j + 1) else d j := by
  intro k
  induction k with
  | zero =>
    intro d i j
    rw [shiftDownLoop, if_neg (by omega), if_neg (by omega)]
  | succ k ih =>
    intro d i j
    rw [shiftDownLoop, if_pos (by omega)]
    have hred : i + (k + 1) = (i + 1) + k := by omega
    rw [hred, ih]
    split_ifs <;> first | rfl | (congr 1; omega)

/-- `shiftUpLoop_apply`, stated for any start `i ≥ index`. -/
theorem shiftUpLoop_eq {α : Type} (d : Nat → α) (index i j : Nat) (h : index ≤ i) :
    shiftUpLoop d index i j = if index < j ∧ j ≤ i then d (j - 1) else d j := by
  obtain ⟨k, rfl⟩ := Nat.exists_eq_add_of_le h
  exact shiftUpLoop_apply index k d j

/-- `shiftDownLoop_apply`, stated for any start `i ≤ stop`. -/
theorem shiftDownLoop_eq {α : Type} (d : Nat → α) (stop i j : Nat) (h : i ≤ stop) :
    shiftDownLoop d stop i j = if i ≤ j ∧ j < stop then d (j + 1) else d j := by
  obtain ⟨k, rfl⟩ := Nat.exists_eq_add_of_le h
  exact shiftDownLoop_apply k d i j

namespace Vector

variable {α : Type}

/-! Basic facts about `toList` and the simple operations. -/

theorem length_toList (v : Vector α) : v.toList.length = v.m_Size := by
  simp [Vector.toList]

theorem getElem_toList (v : Vector α) (i : Nat) (h : i < v.toList.length) :
    v.toList[i] = v.m_Data i := by
  simp [Vector.toList]

/-- The growth call `Reallocate(m_Capacity * 2)` made by `PushBack` and
`Insert` when the vector is full always succeeds. -/
theorem grow_of_full [Inhabited α] (v : Vector α) (h : v.m_Size = v.m_Capacity) :
    v.Reallocate (v.m_Capacity * 2)
      = .ok { m_Data := fun i => if i < v.m_Size then v.m_Data i else default,
              m_Size := v.m_Size, m_Capacity := v.m_Capacity * 2 } := by
  rw [Reallocate, if_neg (by omega)]
  simp [Allocate]

theorem growIfFull_eq_of_full [Inhabited α] (v : Vector α) (h : v.m_Size = v.m_Capacity) :
    v.growIfFull
      = { m_Data := fun i => if i < v.m_Size then v.m_Data i else default,
          m_Size := v.m_Size, m_Capacity := v.m_Capacity * 2 } := by
  rw [growIfFull, if_pos h, grow_of_full v h]

theorem growIfFull_eq_of_not_full [Inhabited α] (v : Vector α)
    (h : ¬ v.m_Size = v.m_Capacity) :
    v.growIfFull = v := by
  rw [growIfFull, if_neg h]

theorem m_Size_growIfFull [Inhabited α] (v : Vector α) :
    v.growIfFull.m_Size = v.m_Size := by
  by_cases h : v.m_Size = v.m_Capacity
  · rw [growIfFull_eq_of_full v h]
  · rw [growIfFull_eq_of_not_full v h]

theorem m_Capacity_growIfFull [Inhabited α] (v : Vector α) :
    v.growIfFull.m_Capacity
      = if v.m_Size = v.m_Capacity then v.m_Capacity * 2 else v.m_Capacity := by
  by_cases h : v.m_Size = v.m_Capacity
  · rw [growIfFull_eq_of_full v h, if_pos h]
  · rw [growIfFull_eq_of_not_full v h, if_neg h]

theorem m_Data_growIfFull_lt [Inhabited α] (v : Vector α) (j : Nat)
    (hj : j < v.m_Size) :
    v.growIfFull.m_Data j = v.m_Data j := by
  by_cases h : v.m_Size = v.m_Capacity
  · simp only [growIfFull_eq_of_full v h]
    rw [if_pos hj]
  · rw [growIfFull_eq_of_not_full v h]

theorem m_Size_PushBack [Inhabited α] (v : Vector α) (x : α) :
    (v.PushBack x).m_Size = v.m_Size + 1 := by
  simp only [PushBack]
  rw [m_Size_growIfFull]

theorem m_Capacity_PushBack [Inhabited α] (v : Vector α) (x : α) :
    (v.PushBack x).m_Capacity
      = if v.m_Size = v.m_Capacity then v.m_Capacity * 2 else v.m_Capacity := by
  simp only [PushBack]
  rw [m_Capacity_growIfFull]

theorem m_Data_PushBack_lt [Inhabited α] (v : Vector α) (x : α) (j : Nat)
    (hj : j < v.m_Size) :
    (v.PushBack x).m_Data j = v.m_Data j := by
  simp only [PushBack]
  rw [m_Size_growIfFull, if_neg (by omega)]
  exact m_Data_growIfFull_lt v j hj

theorem m_Data_PushBack_self [Inhabited α] (v : Vector α) (x : α) :
    (v.PushBack x).m_Data v.m_Size = x := by
  simp only [PushBack]
  rw [m_Size_growIfFull, if_pos rfl]

theorem toList_PushBack [Inhabited α] (v : Vector α) (x : α) :
    (v.PushBack x).toList = v.toList ++ [x] := by
  unfold Vector.toList
  rw [m_Size_PushBack, List.range_succ, List.map_append]
  congr 1
  · exact List.map_congr_left fun a ha =>
      m_Data_PushBack_lt v x a (List.mem_range.mp ha)
  · simp [m_Data_PushBack_self]

theorem m_Size_PopBack (v : Vector α) : v.PopBack.m_Size = v.m_Size - 1 := by
  unfold PopBack
  split
  · next h => rw [h]
  · rfl

theorem m_Capacity_PopBack (v : Vector α) : v.PopBack.m_Capacity = v.m_Capacity := by
  unfold PopBack
  split <;> rfl

theorem m_Data_PopBack (v : Vector α) : v.PopBack.m_Data = v.m_Data := by
  unfold PopBack
  split <;> rfl

/-- The `n`-th entry of the live sequence, in `Option` form. -/
theorem getElem?_toList (v : Vector α) (n : Nat) :
    v.toList[n]? = if n < v.m_Size then some (v.m_Data n) else none := by
  unfold Vector.toList
  by_cases h : n < v.m_Size
  · rw [if_pos h, List.getElem?_eq_getElem (by simpa using h)]
    simp
  · rw [if_neg h]
    exact List.getElem?_eq_none (by simpa using Nat.le_of_not_lt h)

/-! Facts about `Insert` and `Erase` through a cursor at offset `k` from
`Begin()`. -/

/-- The target index the source computes from `position - Begin()`. -/
theorem toNat_offset (v : Vector α) (base : Int) (k : Nat) :
    (((v.Begin base).add (k : Int)).sub (v.Begin base)).toNat = k := by
  simp [Iterator.add, Iterator.sub, Begin]

theorem m_Size_Insert [Inhabited α] (v : Vector α) (base : Int) (pos : Iterator) (x : α) :
    (v.Insert base pos x).m_Size = v.m_Size + 1 := by
  simp only [Insert]
  rw [m_Size_growIfFull]

theorem m_Capacity_Insert [Inhabited α] (v : Vector α) (base : Int) (pos : Iterator) (x : α) :
    (v.Insert base pos x).m_Capacity
      = if v.m_Size = v.m_Capacity then v.m_Capacity * 2 else v.m_Capacity := by
  simp only [Insert]
  rw [m_Capacity_growIfFull]

theorem m_Data_Insert [Inhabited α] (v : Vector α) (base : Int) (k : Nat) (x : α)
    (hk : k ≤ v.m_Size) (j : Nat) (hj : j ≤ v.m_Size) :
    (v.Insert base ((v.Begin base).add (k : Int)) x).m_Data j
      = if j = k then x else if j < k then v.m_Data j else v.m_Data (j - 1) := by
  simp only [Insert]
  rw [toNat_offset, m_Size_growIfFull, shiftUpLoop_eq _ k v.m_Size j hk]
  by_cases h1 : j = k
  · rw [if_pos h1, if_pos h1]
  · rw [if_neg h1, if_neg h1]
    by_cases h2 : j < k
    · rw [if_neg (by omega), if_pos h2]
      exact m_Data_growIfFull_lt v j (by omega)
    · rw [if_pos (by omega : k < j ∧ j ≤ v.m_Size), if_neg h2]
      exact m_Data_growIfFull_lt v (j - 1) (by omega)

theorem m_Size_Erase (v : Vector α) (base : Int) (pos : Iterator) :
    (v.Erase base pos).m_Size = v.m_Size - 1 :=
  rfl

theorem m_Capacity_Erase (v : Vector α) (base : Int) (pos : Iterator) :
    (v.Erase base pos).m_Capacity = v.m_Capacity :=
  rfl

theorem m_Data_Erase (v : Vector α) (base : Int) (k : Nat)
    (hk : k < v.m_Size) (j : Nat) :
    (v.Erase base ((v.Begin base).add (k : Int))).m_Data j
      = if k ≤ j ∧ j < v.m_Size - 1 then v.m_Data (j + 1) else v.m_Data j := by
  simp only [Erase]
  rw [toNat_offset, shiftDownLoop_eq _ (v.m_Size - 1) k j (by omega)]

/-- Inserting through a cursor at offset `k ≤ m_Size` splices the value into
the live sequence at index `k`. -/
theorem toList_Insert [Inhabited α] (v : Vector α) (base : Int) (k : Nat) (x : α)
    (hk : k ≤ v.m_Size) :
    (v.Insert base ((v.Begin base).add (k : Int)) x).toList
      = v.toList.take k ++ x :: v.toList.drop k := by
  apply List.ext_getElem?
  intro n
  rw [getElem?_toList, m_Size_Insert]
  by_cases hn : n ≤ v.m_Size
  · rw [if_pos (by omega), m_Data_Insert v base k x hk n hn]
    by_cases e1 : n < k
    · rw [if_neg (by omega), if_pos e1]
      rw [List.getElem?_append_left (by simp [length_toList]; omega)]
      rw [List.getElem?_take, if_pos e1, getElem?_toList, if_pos (by omega)]
    · by_cases e2 : n = k
      · rw [if_pos e2]
        rw [List.getElem?_append_right (by simp [length_toList]; omega)]
        rw [List.length_take, length_toList]
        rw [show n - min k v.m_Size = 0 by omega, List.getElem?_cons_zero]
      · rw [if_neg e2, if_neg (by omega)]
        rw [List.getElem?_append_right (by simp [length_toList]; omega)]
        rw [List.length_take, length_toList]
        rw [show n - min k v.m_Size = (n - k - 1) + 1 by omega, List.getElem?_cons_succ]
        rw [List.getElem?_drop, getElem?_toList]
        rw [show k + (n - k - 1) = n - 1 by omega, if_pos (by omega)]
  · rw [if_neg (by omega)]
    rw [List.getElem?_eq_none (by simp [length_toList]; omega)]

/-- Erasing through a cursor at offset `k < m_Size` removes index `k` from
the live sequence. -/
theorem toList_Erase (v : Vector α) (base : Int) (k : Nat) (hk : k < v.m_Size) :
    (v.Erase base ((v.Begin base).add (k : Int))).toList
      = v.toList.take k ++ v.toList.drop (k + 1) := by
  apply List.ext_getElem?
  intro n
  rw [getElem?_toList, m_Size_Erase]
  by_cases hn : n < v.m_Size - 1
  · rw [if_pos hn, m_Data_Erase v base k hk n]
    by_cases e1 : n < k
    · rw [if_neg (by omega)]
      rw [List.getElem?_append_left (by simp [length_toList]; omega)]
      rw [List.getElem?_take, if_pos e1, getElem?_toList, if_pos (by omega)]
    · rw [if_pos (by omega : k ≤ n ∧ n < v.m_Size - 1)]
      rw [List.getElem?_append_right (by simp [length_toList]; omega)]
      rw [List.length_take, length_toList]
      rw [show n - min k v.m_Size = n - k by omega]
      rw [List.getElem?_drop, getElem?_toList]
      rw [show k + 1 + (n - k) = n + 1 by omega, if_pos (by omega)]
  · rw [if_neg hn]
    rw [List.getElem?_eq_none (by simp [length_toList]; omega)]

/-! `PushBack` followed by `PopBack`. -/

theorem m_Size_PopBack_PushBack [Inhabited α] (v : Vector α) (x : α) :
    ((v.PushBack x).PopBack).m_Size = v.m_Size := by
  rw [m_Size_PopBack, m_Size_PushBack, Nat.add_sub_cancel]

theorem toList_PopBack_PushBack [Inhabited α] (v : Vector α) (x : α) :
    ((v.PushBack x).PopBack).toList = v.toList := by
  unfold Vector.toList
  rw [m_Data_PopBack, m_Size_PopBack, m_Size_PushBack, Nat.add_sub_cancel]
  exact List.map_congr_left fun a ha => m_Data_PushBack_lt v x a (List.mem_range.mp ha)

/-! Sequences of `PushBack` calls from a default-constructed vector, and the
capacity they produce. -/

/-- The vector obtained by `PushBack`-ing the entries of `xs`, in order,
into a default-constructed vector. -/
def pushAll [Inhabited α] (xs : List α) : Vector α :=
  xs.foldl PushBack mkDefault

/-- The capacity after `n` pushes into a default-constructed vector: starts
at `INITIAL_CAPACITY = 1` and doubles exactly when the push finds the
vector full (`m_Size = m_Capacity`). -/
def capAfter : Nat → Nat
  | 0 => 1
  | n + 1 => if n = capAfter n then capAfter n * 2 else capAfter n

theorem foldl_PushBack_m_Size [Inhabited α] (xs : List α) :
    ∀ v : Vector α, (xs.foldl PushBack v).m_Size = v.m_Size + xs.length := by
  induction xs with
  | nil => intro v; simp
  | cons x xs ih =>
    intro v
    rw [List.foldl_cons, ih, m_Size_PushBack, List.length_cons]
    omega

theorem foldl_PushBack_toList [Inhabited α] (xs : List α) :
    ∀ v : Vector α, (xs.foldl PushBack v).toList = v.toList ++ xs := by
  induction xs with
  | nil => intro v; simp
  | cons x xs ih =>
    intro v
    rw [List.foldl_cons, ih, toList_PushBack]
    simp

theorem toList_mkDefault [Inhabited α] : (mkDefault (α := α)).toList = [] :=
  rfl

theorem m_Size_pushAll [Inhabited α] (xs : List α) :
    (pushAll (α := α) xs).m_Size = xs.length := by
  rw [pushAll, foldl_PushBack_m_Size]
  simp [mkDefault]

theorem toList_pushAll [Inhabited α] (xs : List α) :
    (pushAll (α := α) xs).toList = xs := by
  rw [pushAll, foldl_PushBack_toList, toList_mkDefault, List.nil_append]

theorem pushAll_append_one [Inhabited α] (xs : List α) (x : α) :
    pushAll (xs ++ [x]) = (pushAll xs).PushBack x := by
  rw [pushAll, pushAll, List.foldl_append]
  rfl

theorem m_Capacity_pushAll [Inhabited α] (xs : List α) :
    (pushAll (α := α) xs).m_Capacity = capAfter xs.length := by
  induction xs using List.reverseRecOn with
  | nil => rfl
  | append_singleton xs x ih =>
    rw [pushAll_append_one, m_Capacity_PushBack, m_Size_pushAll, ih, List.length_append,
      List.length_cons, List.length_nil, capAfter]

/-- `capAfter n` is a power of two, is at least `n`, and is the least power
of two that is at least `n`. -/
theorem capAfter_spec (n : Nat) :
    (∃ k, capAfter n = 2 ^ k) ∧ n ≤ capAfter n ∧ ∀ m, n ≤ 2 ^ m → capAfter n ≤ 2 ^ m := by
  induction n with
  | zero =>
    refine ⟨⟨0, rfl⟩, by omega, ?_⟩
    intro m _
    calc capAfter 0 = 1 := rfl
    _ ≤ 2 ^ m := Nat.one_le_two_pow
  | succ n ih =>
    obtain ⟨⟨k, hk⟩, hle, hmin⟩ := ih
    have heq : capAfter (n + 1) = if n = capAfter n then capAfter n * 2 else capAfter n := rfl
    by_cases h : n = capAfter n
    · have hcap : capAfter (n + 1) = capAfter n * 2 := by rw [heq, if_pos h]
      have h1 : 1 ≤ capAfter n := by
        rw [hk]
        exact Nat.one_le_two_pow
      refine ⟨⟨k + 1, by rw [hcap, hk]; ring⟩, by omega, ?_⟩
      intro m hm
      have hn2k : n = 2 ^ k := h.trans hk
      have hlt : 2 ^ k < 2 ^ m := by
        rw [← hn2k]
        exact hm
      have hkm : k < m := (Nat.pow_lt_pow_iff_right (by omega)).mp hlt
      calc capAfter (n + 1) = 2 ^ (k + 1) := by rw [hcap, hk]; ring
      _ ≤ 2 ^ m := Nat.pow_le_pow_right (by omega) (by omega)
    · have hcap : capAfter (n + 1) = capAfter n := by rw [heq, if_neg h]
      refine ⟨⟨k, by rw [hcap, hk]⟩, by omega, ?_⟩
      intro m hm
      rw [hcap]
      exact hmin m (by omega)

/-! The spec's size/capacity invariant and its preservation. -/

/-- The invariant stated by the spec: the capacity is never zero, and the
live count never exceeds the capacity. -/
def Inv (v : Vector α) : Prop :=
  1 ≤ v.m_Capacity ∧ v.m_Size ≤ v.m_Capacity

theorem Inv_mkDefault [Inhabited α] : Inv (mkDefault (α := α)) :=
  ⟨Nat.le_refl 1, Nat.zero_le 1⟩

theorem Inv_mkCount [Inhabited α] (count : Nat) (h : 1 ≤ count) :
    Inv (mkCount (α := α) count) :=
  ⟨h, Nat.zero_le count⟩

theorem Inv_mkFill [Inhabited α] (count : Nat) (x : α) (h : 1 ≤ count) :
    Inv (mkFill count x) :=
  ⟨h, Nat.le_refl count⟩

theorem Inv_copy [Inhabited α] (v : Vector α) (h : Inv v) : Inv (copy v) :=
  ⟨h.1, h.2⟩

theorem Inv_moveCtor_fst [Inhabited α] (v : Vector α) (h : Inv v) :
    Inv (moveCtor v).1 :=
  ⟨h.1, h.2⟩

theorem Inv_moveCtor_snd [Inhabited α] (v : Vector α) : Inv (moveCtor v).2 :=
  ⟨Nat.le_refl 1, Nat.zero_le 1⟩

theorem Inv_Clear (v : Vector α) (h : Inv v) : Inv v.Clear :=
  ⟨h.1, Nat.zero_le _⟩

theorem Inv_PushBack [Inhabited α] (v : Vector α) (x : α) (h : Inv v) :
    Inv (v.PushBack x) := by
  obtain ⟨h1, h2⟩ := h
  constructor
  · rw [m_Capacity_PushBack]
    split_ifs <;> omega
  · rw [m_Size_PushBack, m_Capacity_PushBack]
    split_ifs with hf <;> omega

theorem Inv_PopBack (v : Vector α) (h : Inv v) : Inv v.PopBack := by
  obtain ⟨h1, h2⟩ := h
  constructor
  · rw [m_Capacity_PopBack]
    exact h1
  · rw [m_Size_PopBack, m_Capacity_PopBack]
    omega

theorem Inv_Insert [Inhabited α] (v : Vector α) (base : Int) (pos : Iterator) (x : α)
    (h : Inv v) : Inv (v.Insert base pos x) := by
  obtain ⟨h1, h2⟩ := h
  constructor
  · rw [m_Capacity_Insert]
    split_ifs <;> omega
  · rw [m_Size_Insert, m_Capacity_Insert]
    split_ifs with hf <;> omega

theorem Inv_Erase (v : Vector α) (base : Int) (pos : Iterator)
    (h : Inv v) (hne : 1 ≤ v.m_Size) : Inv (v.Erase base pos) := by
  obtain ⟨h1, h2⟩ := h
  constructor
  · rw [m_Capacity_Erase]
    exact h1
  · rw [m_Size_Erase, m_Capacity_Erase]
    omega

end Vector

section Claims

open Vector

/-- C1: for every vector `v` and index `i`, the bounds-checked access
`At(i)` fails with the OutOfRange condition exactly when `i ≥ Size()` (in
particular `At(0)` fails on an empty vector); `At` writes no member, so the
vector's size, capacity and elements are unchanged in both outcomes, and on
success it returns the element at index `i` (the `operator[]` value). -/
theorem At_spec {α : Type} (v : Vector α) (i : Nat) :
    (v.At i = .error .outOfRange ↔ v.Size ≤ i)
      ∧ (v.Empty = true → v.At 0 = .error .outOfRange)
      ∧ (i < v.Size → v.At i = .ok (v.get i)) := by
  refine ⟨⟨?_, ?_⟩, ?_, ?_⟩
  · intro h
    show v.m_Size ≤ i
    by_contra hlt
    rw [At, if_neg (by omega)] at h
    exact absurd h (by simp)
  · intro h
    have h' : i ≥ v.m_Size := h
    rw [At, if_pos h']
  · intro h
    have h0 : v.m_Size = 0 := by simpa [Vector.Empty] using h
    rw [At, if_pos (by omega)]
  · intro h
    have h' : i < v.m_Size := h
    rw [At, if_neg (by omega)]
    rfl

/-- Witness for `At_spec`: the end-to-end example of the spec, on the
vector `[3, 4]` and an empty vector. -/
theorem At_spec_witness :
    ((pushAll [3, 4] : Vector Nat).At 5 = .error .outOfRange
        ↔ (pushAll [3, 4] : Vector Nat).Size ≤ 5)
      ∧ ((mkDefault : Vector Nat).At 0 = .error .outOfRange)
      ∧ ((pushAll [3, 4] : Vector Nat).At 1 = .ok ((pushAll [3, 4] : Vector Nat).get 1)) :=
  ⟨(At_spec (pushAll [3, 4]) 5).1,
   (At_spec (mkDefault : Vector Nat) 0).2.1 (by decide),
   (At_spec (pushAll [3, 4]) 1).2.2 (by decide)⟩

/-- C2 counterexample: the count constructor `Vector(SizeType count)` with
`count = 0` produces a vector of capacity 0, refuting the claim that every
constructor establishes a capacity of at least 1. -/
theorem mkCount_zero_capacity_zero :
    ¬ (1 ≤ (mkCount 0 : Vector Nat).Capacity) := by
  decide

/-- C2 (amended): the invariant `1 ≤ capacity ∧ length ≤ capacity` holds
for the default constructor, for the count and count+value constructors
when `count ≥ 1`, for a copy of a vector satisfying it, for the vector
produced by a move and for the vector a move leaves behind; and it is
preserved by `Clear`, `PushBack`, `PopBack`, `Insert`, and by `Erase` on a
non-empty vector.  (The count constructors with `count = 0` give capacity
0 and violate it, which is the only correction to the claim.) -/
theorem Inv_established_and_preserved {α : Type} [Inhabited α]
    (v : Vector α) (x : α) (count : Nat) (base : Int) (pos : Iterator) :
    Inv (mkDefault (α := α))
      ∧ (1 ≤ count → Inv (mkCount (α := α) count))
      ∧ (1 ≤ count → Inv (mkFill count x))
      ∧ (Inv v → Inv (copy v))
      ∧ (Inv v → Inv (moveCtor v).1)
      ∧ Inv (moveCtor v).2
      ∧ (Inv v → Inv v.Clear)
      ∧ (Inv v → Inv (v.PushBack x))
      ∧ (Inv v → Inv v.PopBack)
      ∧ (Inv v → Inv (v.Insert base pos x))
      ∧ (Inv v → 1 ≤ v.m_Size → Inv (v.Erase base pos)) :=
  ⟨Inv_mkDefault, Inv_mkCount count, Inv_mkFill count x, Inv_copy v,
   Inv_moveCtor_fst v, Inv_moveCtor_snd v, Inv_Clear v, Inv_PushBack v x,
   Inv_PopBack v, Inv_Insert v base pos x, Inv_Erase v base pos⟩

/-- Witness for `Inv_established_and_preserved` on concrete vectors. -/
theorem Inv_established_and_preserved_witness :
    Inv ((mkDefault : Vector Nat).PushBack 5)
      ∧ Inv (mkCount (α := Nat) 3)
      ∧ Inv ((pushAll [7, 8] : Vector Nat).Erase 0 (Iterator.mk 0)) := by
  have h1 := Inv_established_and_preserved (α := Nat) mkDefault 5 3 0 (Iterator.mk 0)
  have h2 := Inv_established_and_preserved (α := Nat) (pushAll [7, 8]) 5 3 0 (Iterator.mk 0)
  exact ⟨h1.2.2.2.2.2.2.2.1 ⟨by decide, by decide⟩,
         h1.2.1 (by decide),
         h2.2.2.2.2.2.2.2.2.2.2 ⟨by decide, by decide⟩ (by decide)⟩

/-- C3: `Reallocate(newCapacity)` fails with the InvalidCapacity condition
exactly when `newCapacity < Size()`; the check is made before any member
write, so on failure the vector is exactly as before the call (the model
returns only the error and leaves the input untouched); for
`newCapacity ≥ Size()` it succeeds, preserves the element sequence and the
size, and sets the capacity to `newCapacity`. -/
theorem Reallocate_spec {α : Type} [Inhabited α] (v : Vector α) (newCapacity : Nat) :
    (newCapacity < v.Size → v.Reallocate newCapacity = .error .invalidCapacity)
      ∧ (v.Size ≤ newCapacity →
          ∃ w, v.Reallocate newCapacity = .ok w
            ∧ w.Size = v.Size ∧ w.Capacity = newCapacity ∧ w.toList = v.toList) := by
  constructor
  · intro h
    have h' : newCapacity < v.m_Size := h
    rw [Reallocate, if_pos h']
  · intro h
    have h' : v.m_Size ≤ newCapacity := h
    rw [Reallocate, if_neg (by omega)]
    refine ⟨_, rfl, rfl, rfl, ?_⟩
    unfold Vector.toList
    refine List.map_congr_left fun a ha => ?_
    have hlt := List.mem_range.mp ha
    simp [hlt]

/-- Witness for `Reallocate_spec`: shrinking `[1, 2, 3]` below its size
fails; growing it to 8 succeeds and keeps the contents. -/
theorem Reallocate_spec_witness :
    ((pushAll [1, 2, 3] : Vector Nat).Reallocate 1 = .error .invalidCapacity)
      ∧ ∃ w, (pushAll [1, 2, 3] : Vector Nat).Reallocate 8 = .ok w
          ∧ w.Size = (pushAll [1, 2, 3] : Vector Nat).Size
          ∧ w.Capacity = 8
          ∧ w.toList = (pushAll [1, 2, 3] : Vector Nat).toList :=
  ⟨(Reallocate_spec (pushAll [1, 2, 3]) 1).1 (by decide),
   (Reallocate_spec (pushAll [1, 2, 3]) 8).2 (by decide)⟩

/-- C4: after pushing the entries of `xs`, in order, into a
default-constructed vector, `Size()` equals the number of pushes, the live
sequence is exactly `xs` — so `operator[]` and `At(i)` return the `i`-th
pushed value for every `i < n` — and `Capacity()` is a power of two, is at
least `n`, and is the smallest power of two that is at least `n`. -/
theorem pushAll_spec {α : Type} [Inhabited α] (xs : List α) :
    (pushAll (α := α) xs).Size = xs.length
      ∧ (pushAll (α := α) xs).toList = xs
      ∧ (∀ i (h : i < xs.length),
          (pushAll (α := α) xs).get i = xs[i]
            ∧ (pushAll (α := α) xs).At i = .ok xs[i])
      ∧ (∃ k, (pushAll (α := α) xs).Capacity = 2 ^ k)
      ∧ xs.length ≤ (pushAll (α := α) xs).Capacity
      ∧ (∀ m, xs.length ≤ 2 ^ m → (pushAll (α := α) xs).Capacity ≤ 2 ^ m) := by
  have hsize : (pushAll (α := α) xs).m_Size = xs.length := m_Size_pushAll xs
  have hlist : (pushAll (α := α) xs).toList = xs := toList_pushAll xs
  have hcap : (pushAll (α := α) xs).m_Capacity = capAfter xs.length := m_Capacity_pushAll xs
  obtain ⟨⟨k, hk⟩, hge, hmin⟩ := capAfter_spec xs.length
  refine ⟨hsize, hlist, ?_, ⟨k, show (pushAll (α := α) xs).m_Capacity = 2 ^ k by rw [hcap, hk]⟩,
    show xs.length ≤ (pushAll (α := α) xs).m_Capacity by rw [hcap]; exact hge, ?_⟩
  · intro i h
    have hi : i < (pushAll (α := α) xs).m_Size := by
      rw [hsize]
      exact h
    have hdata : (pushAll (α := α) xs).m_Data i = xs[i] := by
      have h1 := getElem?_toList (pushAll (α := α) xs) i
      rw [hlist, if_pos hi, List.getElem?_eq_getElem h] at h1
      exact (Option.some.inj h1).symm
    refine ⟨hdata, ?_⟩
    show (pushAll (α := α) xs).At i = .ok xs[i]
    rw [At, if_neg (by omega), hdata]
  · intro m hm
    show (pushAll (α := α) xs).m_Capacity ≤ 2 ^ m
    rw [hcap]
    exact hmin m hm

/-- Witness for `pushAll_spec`: the spec's example — 5 pushes from fresh
give size 5, capacity 8, and `At(4)` returns the 5th pushed value. -/
theorem pushAll_spec_witness :
    (pushAll [10, 20, 30, 40, 50] : Vector Nat).Size = 5
      ∧ (pushAll [10, 20, 30, 40, 50] : Vector Nat).Capacity = 8
      ∧ (pushAll [10, 20, 30, 40, 50] : Vector Nat).At 4 = .ok 50 := by
  have h := pushAll_spec (α := Nat) [10, 20, 30, 40, 50]
  refine ⟨h.1, by decide, ?_⟩
  have h4 := (h.2.2.1 4 (by decide)).2
  simpa using h4

/-- C5: inserting `x` through a cursor at a valid target offset `k ≤ n`
into a vector holding `e_0..e_{n-1}` produces
`e_0..e_{k-1}, x, e_k..e_{n-1}` with `Size() = n + 1`. -/
theorem Insert_spec {α : Type} [Inhabited α] (v : Vector α) (base : Int) (k : Nat) (x : α)
    (hk : k ≤ v.Size) :
    (v.Insert base ((v.Begin base).add (k : Int)) x).Size = v.Size + 1
      ∧ (v.Insert base ((v.Begin base).add (k : Int)) x).toList
          = v.toList.take k ++ x :: v.toList.drop k :=
  ⟨m_Size_Insert v base _ x, toList_Insert v base k x hk⟩

/-- Witness for `Insert_spec`: inserting `9` at index 1 of `[1, 2, 3]`. -/
theorem Insert_spec_witness :
    ((pushAll [1, 2, 3] : Vector Nat).Insert 0
        (((pushAll [1, 2, 3] : Vector Nat).Begin 0).add ((1 : Nat) : Int)) 9).Size
        = (pushAll [1, 2, 3] : Vector Nat).Size + 1
      ∧ ((pushAll [1, 2, 3] : Vector Nat).Insert 0
          (((pushAll [1, 2, 3] : Vector Nat).Begin 0).add ((1 : Nat) : Int)) 9).toList
          = (pushAll [1, 2, 3] : Vector Nat).toList.take 1
              ++ 9 :: (pushAll [1, 2, 3] : Vector Nat).toList.drop 1 :=
  Insert_spec (pushAll [1, 2, 3]) 0 1 9 (by decide)

/-- C6: erasing through a cursor at a valid target offset `k < n` from a
non-empty vector holding `e_0..e_{n-1}` produces
`e_0..e_{k-1}, e_{k+1}..e_{n-1}` with `Size() = n - 1`. -/
theorem Erase_spec {α : Type} (v : Vector α) (base : Int) (k : Nat) (hk : k < v.Size) :
    (v.Erase base ((v.Begin base).add (k : Int))).Size = v.Size - 1
      ∧ (v.Erase base ((v.Begin base).add (k : Int))).toList
          = v.toList.take k ++ v.toList.drop (k + 1) :=
  ⟨m_Size_Erase v base _, toList_Erase v base k hk⟩

/-- Witness for `Erase_spec`: erasing index 1 of `[1, 2, 3]`. -/
theorem Erase_spec_witness :
    ((pushAll [1, 2, 3] : Vector Nat).Erase 0
        (((pushAll [1, 2, 3] : Vector Nat).Begin 0).add ((1 : Nat) : Int))).Size
        = (pushAll [1, 2, 3] : Vector Nat).Size - 1
      ∧ ((pushAll [1, 2, 3] : Vector Nat).Erase 0
          (((pushAll [1, 2, 3] : Vector Nat).Begin 0).add ((1 : Nat) : Int))).toList
          = (pushAll [1, 2, 3] : Vector Nat).toList.take 1
              ++ (pushAll [1, 2, 3] : Vector Nat).toList.drop 2 :=
  Erase_spec (pushAll [1, 2, 3]) 0 1 (by decide)

/-- C7 counterexample: with the vector `[7]` (size 1 = capacity 1),
PushBack doubles the capacity to 2 and PopBack does not shrink it, so the
PushBack/PopBack pair does not leave `Capacity()` unchanged. -/
theorem PushBack_PopBack_capacity_changed :
    (((pushAll [7] : Vector Nat).PushBack 8).PopBack).Capacity
      ≠ (pushAll [7] : Vector Nat).Capacity := by
  decide

/-- C7 (amended): PushBack followed by PopBack always restores the prior
`Size()` (and the prior live sequence); `PopBack` itself never changes
`Capacity()` (no shrink on pop); and the pair leaves `Capacity()` unchanged
whenever the vector was not full beforehand (`Size() < Capacity()`) — when
it was full, the push doubles the capacity and the pop keeps the doubled
value. -/
theorem PushBack_PopBack_spec {α : Type} [Inhabited α] (v : Vector α) (x : α) :
    ((v.PushBack x).PopBack).Size = v.Size
      ∧ ((v.PushBack x).PopBack).toList = v.toList
      ∧ (∀ w : Vector α, w.PopBack.Capacity = w.Capacity)
      ∧ (v.Size < v.Capacity → ((v.PushBack x).PopBack).Capacity = v.Capacity) := by
  refine ⟨m_Size_PopBack_PushBack v x, toList_PopBack_PushBack v x,
    fun w => m_Capacity_PopBack w, ?_⟩
  intro h
  have h' : v.m_Size < v.m_Capacity := h
  show ((v.PushBack x).PopBack).m_Capacity = v.m_Capacity
  rw [m_Capacity_PopBack, m_Capacity_PushBack, if_neg (by omega)]

/-- Witness for `PushBack_PopBack_spec` on `[7, 8, 9]` (size 3 < capacity
4, so the pair also leaves the capacity unchanged). -/
theorem PushBack_PopBack_spec_witness :
    (((pushAll [7, 8, 9] : Vector Nat).PushBack 1).PopBack).Size
        = (pushAll [7, 8, 9] : Vector Nat).Size
      ∧ (((pushAll [7, 8, 9] : Vector Nat).PushBack 1).PopBack).Capacity
        = (pushAll [7, 8, 9] : Vector Nat).Capacity :=
  ⟨(PushBack_PopBack_spec (pushAll [7, 8, 9]) 1).1,
   (PushBack_PopBack_spec (pushAll [7, 8, 9]) 1).2.2.2 (by decide)⟩

/-- C8: step behavior of the four cursor step operations as implemented,
at a cursor sitting at offset 1.  Prefix advance, postfix advance and
prefix retreat move the cursor one position in their stated direction, but
the source's postfix retreat (`operator--(int)`) executes `++(*this)` and
moves the cursor one position toward the END (offset 1 becomes 2, not 0),
contradicting the claim and the evident intent of the operator. -/
theorem step_operations_behavior :
    (Iterator.incPre ⟨1⟩).m_Ptr = 2
      ∧ (Iterator.incPost ⟨1⟩).1.m_Ptr = 2
      ∧ (Iterator.decPre ⟨1⟩).m_Ptr = 0
      ∧ (Iterator.decPost ⟨1⟩).1.m_Ptr = 2 :=
  ⟨rfl, rfl, rfl, rfl⟩

/-- C9: the cursor distance `End() - Begin()` equals `Size()`, and
`Begin() == End()` returns the same boolean as `Empty()` (so the two hold
together), for every allocation address `base`. -/
theorem Begin_End_spec {α : Type} (v : Vector α) (base : Int) :
    (v.End base).sub (v.Begin base) = (v.Size : Int)
      ∧ ((v.Begin base).eqOp (v.End base) = v.Empty) := by
  constructor
  · show (base + (v.m_Size : Int)) - base = (v.m_Size : Int)
    omega
  · show (base == base + (v.m_Size : Int)) = (v.m_Size == 0)
    rw [Bool.eq_iff_iff]
    simp only [beq_iff_eq]
    omega

/-- C10: the iterator returned by postfix advance (`operator++(int)`) is
the already-advanced iterator: it equals the result of prefix advance on
the same cursor, and is distinct from the pre-advance cursor. -/
theorem incPost_returns_advanced (c : Iterator) :
    (c.incPost).2 = c.incPre ∧ (c.incPost).2 ≠ c := by
  refine ⟨rfl, ?_⟩
  intro h
  have h2 : c.m_Ptr + 1 = c.m_Ptr := congrArg Iterator.m_Ptr h
  omega

end Claims

end CppVector
